import Mathlib

/-!
 Verification of the path-instruction reducer (`reduceInstructions`), the
browser screenshot helper (`screenshotDOMElement`) and the Cloud Run render
stream handling (`renderMediaOnCloudrun`) of this repository, in a shallow
embedding.  Coordinates are embedded as rationals (exact arithmetic standing
in for JavaScript numbers), fallible code as `Except`, and the streaming
callback protocol as an explicit fold over the received chunks.
-/

namespace PathReducer

/-- A 2-D point with exact rational coordinates. -/
structure Point where
  x : ℚ
  y : ℚ
deriving DecidableEq, Repr

/-- The `Instruction` tagged variant: one drawing operation of a vector path.
Each coordinate-bearing instruction carries a flag saying whether its
coordinates are relative (to the cursor) or absolute. -/
inductive Instruction where
  | Move (relative : Bool) (x y : ℚ)
  | Line (relative : Bool) (x y : ℚ)
  | HorizontalLine (relative : Bool) (x : ℚ)
  | VerticalLine (relative : Bool) (y : ℚ)
  | CubicCurve (relative : Bool) (x1 y1 x2 y2 x y : ℚ)
  | SmoothCubicCurve (relative : Bool) (x2 y2 x y : ℚ)
  | QuadraticCurve (relative : Bool) (x1 y1 x y : ℚ)
  | SmoothQuadraticCurve (relative : Bool) (x y : ℚ)
  | Arc (relative : Bool) (rx ry xAxisRotation : ℚ) (largeArcFlag sweepFlag : Bool)
      (x y : ℚ)
  | ClosePath
deriving DecidableEq, Repr

/-- The `ReducedInstruction` restricted variant: only Move, Line, CubicCurve,
QuadraticCurve and ClosePath, all with absolute coordinates. -/
inductive ReducedInstruction where
  | Move (x y : ℚ)
  | Line (x y : ℚ)
  | CubicCurve (x1 y1 x2 y2 x y : ℚ)
  | QuadraticCurve (x1 y1 x y : ℚ)
  | ClosePath
deriving DecidableEq, Repr

/-- Reduced instructions are a sub-variant of instructions (in the original
they are literally a subtype); this is the inclusion. -/
def ReducedInstruction.toInstruction : ReducedInstruction → Instruction
  | .Move x y => .Move false x y
  | .Line x y => .Line false x y
  | .CubicCurve x1 y1 x2 y2 x y => .CubicCurve false x1 y1 x2 y2 x y
  | .QuadraticCurve x1 y1 x y => .QuadraticCurve false x1 y1 x y
  | .ClosePath => .ClosePath

/-- State threaded through the normalization pass: the running cursor, the
start point of the current subpath (target of ClosePath), and the last
control point of the previous cubic / quadratic curve, kept only while the
previous instruction was a compatible curve type (`none` otherwise). -/
structure NormState where
  cursor : Point
  subpathStart : Point
  lastCubicControl : Option Point
  lastQuadControl : Option Point
deriving DecidableEq, Repr

def initState : NormState :=
  { cursor := ⟨0, 0⟩, subpathStart := ⟨0, 0⟩,
    lastCubicControl := none, lastQuadControl := none }

/-- Resolve a coordinate pair against the cursor: relative coordinates are
offsets from the cursor position before the instruction is applied. -/
def resolve (relative : Bool) (c : Point) (x y : ℚ) : Point :=
  if relative then ⟨c.x + x, c.y + y⟩ else ⟨x, y⟩

/-- Modelled from the spec: the normalization stage of `normalizeInstructions`
(file `normalize-path` is not under src/; only its caller is).  Converts one
instruction to absolute coordinates, expands Horizontal/Vertical lines into
full Lines at the cursor, expands Smooth curve variants by reflecting the
previous curve's last control point (falling back to the cursor when the
previous instruction was not a compatible curve type), and expands an Arc
into cubic-curve approximation.  For the Arc the spec leaves the subdivision
policy open and requires only that the generated cubic run starts at the
cursor and ends at the arc's declared endpoint, so it is modelled as a single
such cubic segment.  Returns the emitted instructions and the next state. -/
def normalizeInstruction (s : NormState) : Instruction → List Instruction × NormState
  | .Move rel x y =>
      let p := resolve rel s.cursor x y
      ([.Move false p.x p.y],
        { cursor := p, subpathStart := p,
          lastCubicControl := none, lastQuadControl := none })
  | .Line rel x y =>
      let p := resolve rel s.cursor x y
      ([.Line false p.x p.y],
        { s with cursor := p, lastCubicControl := none, lastQuadControl := none })
  | .HorizontalLine rel x =>
      let nx := if rel then s.cursor.x + x else x
      let p : Point := { x := nx, y := s.cursor.y }
      ([.Line false nx s.cursor.y],
        { s with cursor := p, lastCubicControl := none, lastQuadControl := none })
  | .VerticalLine rel y =>
      let ny := if rel then s.cursor.y + y else y
      let p : Point := { x := s.cursor.x, y := ny }
      ([.Line false s.cursor.x ny],
        { s with cursor := p, lastCubicControl := none, lastQuadControl := none })
  | .CubicCurve rel x1 y1 x2 y2 x y =>
      let p1 := resolve rel s.cursor x1 y1
      let p2 := resolve rel s.cursor x2 y2
      let p := resolve rel s.cursor x y
      ([.CubicCurve false p1.x p1.y p2.x p2.y p.x p.y],
        { s with cursor := p, lastCubicControl := some p2, lastQuadControl := none })
  | .SmoothCubicCurve rel x2 y2 x y =>
      let c1 : Point :=
        match s.lastCubicControl with
        | some c => ⟨2 * s.cursor.x - c.x, 2 * s.cursor.y - c.y⟩
        | none => s.cursor
      let p2 := resolve rel s.cursor x2 y2
      let p := resolve rel s.cursor x y
      ([.CubicCurve false c1.x c1.y p2.x p2.y p.x p.y],
        { s with cursor := p, lastCubicControl := some p2, lastQuadControl := none })
  | .QuadraticCurve rel x1 y1 x y =>
      let p1 := resolve rel s.cursor x1 y1
      let p := resolve rel s.cursor x y
      ([.QuadraticCurve false p1.x p1.y p.x p.y],
        { s with cursor := p, lastCubicControl := none, lastQuadControl := some p1 })
  | .SmoothQuadraticCurve rel x y =>
      let c : Point :=
        match s.lastQuadControl with
        | some q => ⟨2 * s.cursor.x - q.x, 2 * s.cursor.y - q.y⟩
        | none => s.cursor
      let p := resolve rel s.cursor x y
      ([.QuadraticCurve false c.x c.y p.x p.y],
        { s with cursor := p, lastCubicControl := none, lastQuadControl := some c })
  | .Arc rel _rx _ry _xAxisRotation _largeArcFlag _sweepFlag x y =>
      let p := resolve rel s.cursor x y
      ([.CubicCurve false s.cursor.x s.cursor.y p.x p.y p.x p.y],
        { s with cursor := p, lastCubicControl := none, lastQuadControl := none })
  | .ClosePath =>
      ([.ClosePath],
        { s with cursor := s.subpathStart, lastCubicControl := none, lastQuadControl := none })

/-- The normalization pass as a fold over the instruction list. -/
def normalizeLoop : NormState → List Instruction → List Instruction
  | _, [] => []
  | s, i :: rest =>
      let step := normalizeInstruction s i
      step.1 ++ normalizeLoop step.2 rest

/-- Modelled from the spec: `normalizeInstructions` (stage 1 of the reducer),
run from the initial state with the cursor at the origin. -/
def normalizeInstructions (instruction : List Instruction) : List Instruction :=
  normalizeLoop initState instruction

/-- The normalization state reached after processing a list of instructions. -/
def stateAfter : NormState → List Instruction → NormState
  | s, [] => s
  | s, i :: rest => stateAfter (normalizeInstruction s i).2 rest

/-- Modelled from the spec: the per-instruction check of the simplification
stage.  Move/Line/Cubic/Quadratic/Close are kept (their coordinates are
already absolute after stage 1); any remaining Arc/Smooth/Horizontal/Vertical
tag is a logic error of stage 1, surfaced as a fatal error. -/
def simplifyInstruction : Instruction → Except String ReducedInstruction
  | .Move _ x y => .ok (.Move x y)
  | .Line _ x y => .ok (.Line x y)
  | .CubicCurve _ x1 y1 x2 y2 x y => .ok (.CubicCurve x1 y1 x2 y2 x y)
  | .QuadraticCurve _ x1 y1 x y => .ok (.QuadraticCurve x1 y1 x y)
  | .ClosePath => .ok .ClosePath
  | _ => .error "Invalid instruction kind after reduction"

/-- Modelled from the spec: `removeATSHVInstructions` (stage 2, file
`remove-a-s-t-curves` is not under src/).  Maps every instruction through the
simplification check, failing fast on the first invalid kind. -/
def removeATSHVInstructions : List Instruction → Except String (List ReducedInstruction)
  | [] => .ok []
  | i :: rest =>
      match simplifyInstruction i with
      | .error e => .error e
      | .ok r =>
          match removeATSHVInstructions rest with
          | .error e => .error e
          | .ok rs => .ok (r :: rs)

/-- The function `reduceInstructions` (src/unnamed/part_001 lines 82-87):
normalize, then remove the A/T/S/H/V instructions. -/
def reduceInstructions (instruction : List Instruction) :
    Except String (List ReducedInstruction) :=
  let simplified := normalizeInstructions instruction
  removeATSHVInstructions simplified

/-- Whether an instruction is of one of the five reduced kinds. -/
def isReducedKind : Instruction → Bool
  | .Move _ _ _ => true
  | .Line _ _ _ => true
  | .CubicCurve _ _ _ _ _ _ _ => true
  | .QuadraticCurve _ _ _ _ _ => true
  | .ClosePath => true
  | _ => false

/-- Whether an instruction carries absolute coordinates. -/
def isAbsolute : Instruction → Bool
  | .Move r _ _ => !r
  | .Line r _ _ => !r
  | .HorizontalLine r _ => !r
  | .VerticalLine r _ => !r
  | .CubicCurve r _ _ _ _ _ _ => !r
  | .SmoothCubicCurve r _ _ _ _ => !r
  | .QuadraticCurve r _ _ _ _ => !r
  | .SmoothQuadraticCurve r _ _ => !r
  | .Arc r _ _ _ _ _ _ _ => !r
  | .ClosePath => true

/-- An instruction that is both of reduced kind and absolute. -/
def reducedAbs (i : Instruction) : Bool :=
  isReducedKind i && isAbsolute i

/-- The simplification check as a partial map (its successful fiber). -/
def simplifyOpt (i : Instruction) : Option ReducedInstruction :=
  (simplifyInstruction i).toOption

/-- Closed form of the reduced output (shown below to be what
`reduceInstructions` always returns). -/
def reducedList (l : List Instruction) : List ReducedInstruction :=
  (normalizeInstructions l).filterMap simplifyOpt

lemma normalizeInstruction_fst_all (s : NormState) (i : Instruction) :
    ((normalizeInstruction s i).1).all reducedAbs = true := by
  cases i <;> simp [normalizeInstruction, reducedAbs, isReducedKind, isAbsolute]

lemma normalizeLoop_all (l : List Instruction) :
    ∀ s : NormState, ((normalizeLoop s l).all reducedAbs) = true := by
  induction l with
  | nil => intro s; rfl
  | cons i rest ih =>
      intro s
      simp only [normalizeLoop, List.all_append, Bool.and_eq_true]
      exact ⟨normalizeInstruction_fst_all s i, ih _⟩

lemma simplify_of_reducedAbs (i : Instruction) (h : reducedAbs i = true) :
    ∃ r, simplifyInstruction i = .ok r ∧ r.toInstruction = i := by
  cases i with
  | Move rel x y =>
      simp [reducedAbs, isReducedKind, isAbsolute] at h
      subst h
      exact ⟨.Move x y, rfl, rfl⟩
  | Line rel x y =>
      simp [reducedAbs, isReducedKind, isAbsolute] at h
      subst h
      exact ⟨.Line x y, rfl, rfl⟩
  | CubicCurve rel x1 y1 x2 y2 x y =>
      simp [reducedAbs, isReducedKind, isAbsolute] at h
      subst h
      exact ⟨.CubicCurve x1 y1 x2 y2 x y, rfl, rfl⟩
  | QuadraticCurve rel x1 y1 x y =>
      simp [reducedAbs, isReducedKind, isAbsolute] at h
      subst h
      exact ⟨.QuadraticCurve x1 y1 x y, rfl, rfl⟩
  | ClosePath => exact ⟨.ClosePath, rfl, rfl⟩
  | HorizontalLine rel x => simp [reducedAbs, isReducedKind] at h
  | VerticalLine rel y => simp [reducedAbs, isReducedKind] at h
  | SmoothCubicCurve rel x2 y2 x y => simp [reducedAbs, isReducedKind] at h
  | SmoothQuadraticCurve rel x y => simp [reducedAbs, isReducedKind] at h
  | Arc rel rx ry rot laf sf x y => simp [reducedAbs, isReducedKind] at h

lemma removeATSHV_of_all (l : List Instruction) (h : l.all reducedAbs = true) :
    removeATSHVInstructions l = .ok (l.filterMap simplifyOpt) := by
  induction l with
  | nil => rfl
  | cons i rest ih =>
      simp only [List.all_cons, Bool.and_eq_true] at h
      obtain ⟨r, hr, -⟩ := simplify_of_reducedAbs i h.1
      simp [removeATSHVInstructions, hr, ih h.2, List.filterMap_cons, simplifyOpt,
        Except.toOption]

lemma reduce_eq_reducedList (l : List Instruction) :
    reduceInstructions l = .ok (reducedList l) := by
  simpa [reduceInstructions, reducedList] using
    removeATSHV_of_all (normalizeInstructions l) (normalizeLoop_all l initState)

lemma normalizeInstruction_id (s : NormState) (i : Instruction)
    (h : reducedAbs i = true) : (normalizeInstruction s i).1 = [i] := by
  cases i <;>
    simp [reducedAbs, isReducedKind, isAbsolute] at h <;>
    simp [normalizeInstruction, resolve, h]

lemma normalizeLoop_id (l : List Instruction) :
    ∀ s : NormState, l.all reducedAbs = true → normalizeLoop s l = l := by
  induction l with
  | nil => intros; rfl
  | cons i rest ih =>
      intro s h
      simp only [List.all_cons, Bool.and_eq_true] at h
      simp [normalizeLoop, normalizeInstruction_id s i h.1, ih _ h.2]

lemma toInstruction_reducedAbs (r : ReducedInstruction) :
    reducedAbs r.toInstruction = true := by
  cases r <;> rfl

lemma simplify_toInstruction (r : ReducedInstruction) :
    simplifyInstruction r.toInstruction = .ok r := by
  cases r <;> rfl

lemma removeATSHV_roundtrip (rs : List ReducedInstruction) :
    removeATSHVInstructions (rs.map ReducedInstruction.toInstruction) = .ok rs := by
  induction rs with
  | nil => rfl
  | cons r rest ih =>
      simp [removeATSHVInstructions, simplify_toInstruction, ih]

lemma filterMap_map_toInstruction (l : List Instruction)
    (h : l.all reducedAbs = true) :
    (l.filterMap simplifyOpt).map ReducedInstruction.toInstruction = l := by
  induction l with
  | nil => rfl
  | cons i rest ih =>
      simp only [List.all_cons, Bool.and_eq_true] at h
      obtain ⟨r, hr, hri⟩ := simplify_of_reducedAbs i h.1
      simp [List.filterMap_cons, simplifyOpt, hr, hri, ih h.2, Except.toOption]

lemma map_toInstruction_all (rs : List ReducedInstruction) :
    (rs.map ReducedInstruction.toInstruction).all reducedAbs = true := by
  induction rs with
  | nil => rfl
  | cons r rest ih => simp [toInstruction_reducedAbs, ih]

/-- C1: every element of the sequence returned by `reduceInstructions` is of
one of the five kinds Move, Line, CubicCurve, QuadraticCurve, ClosePath and
carries absolute coordinates (the normalized intermediate already satisfies
the invariant, the call succeeds, and every returned element, viewed as an
instruction, is of reduced kind and absolute). -/
theorem reduce_output_only_five_absolute_kinds (l : List Instruction) :
    (normalizeInstructions l).all reducedAbs = true ∧
    ∃ r, reduceInstructions l = .ok r ∧
      (r.map ReducedInstruction.toInstruction).all reducedAbs = true :=
  ⟨normalizeLoop_all l initState,
    reducedList l, reduce_eq_reducedList l, map_toInstruction_all _⟩

/-- C2: `reduceInstructions` is idempotent — re-reducing any reduced output
returns it unchanged. -/
theorem reduce_idempotent (x : List Instruction) (r : List ReducedInstruction)
    (h : reduceInstructions x = .ok r) :
    reduceInstructions (r.map ReducedInstruction.toInstruction) = .ok r := by
  have hall := map_toInstruction_all r
  simp only [reduceInstructions, normalizeInstructions]
  rw [normalizeLoop_id _ initState hall]
  exact removeATSHV_roundtrip r

theorem reduce_idempotent_witness :
    reduceInstructions [Instruction.Move false 1 2] = .ok [ReducedInstruction.Move 1 2] ∧
    reduceInstructions
        (List.map ReducedInstruction.toInstruction [ReducedInstruction.Move 1 2]) =
      .ok [ReducedInstruction.Move 1 2] := by
  have h : reduceInstructions [Instruction.Move false 1 2] =
      .ok [ReducedInstruction.Move 1 2] := by
    norm_num [reduceInstructions, normalizeInstructions, normalizeLoop,
      normalizeInstruction, resolve, initState, removeATSHVInstructions,
      simplifyInstruction]
  exact ⟨h, reduce_idempotent _ _ h⟩

/-- C3 counterexample: an input whose instructions are all of the five kinds
but one of which carries relative coordinates is rewritten to absolute
coordinates, so `reduceInstructions` is not the identity on it. -/
theorem reduce_not_identity_on_relative_input :
    (∀ i ∈ [Instruction.Move false 2 2, Instruction.Line true 1 1],
      isReducedKind i = true) ∧
    reduceInstructions [Instruction.Move false 2 2, Instruction.Line true 1 1] =
      .ok [ReducedInstruction.Move 2 2, ReducedInstruction.Line 3 3] ∧
    List.map ReducedInstruction.toInstruction
        [ReducedInstruction.Move 2 2, ReducedInstruction.Line 3 3] ≠
      [Instruction.Move false 2 2, Instruction.Line true 1 1] := by
  refine ⟨?_, ?_, ?_⟩
  · decide
  · norm_num [reduceInstructions, normalizeInstructions, normalizeLoop,
      normalizeInstruction, resolve, initState, removeATSHVInstructions,
      simplifyInstruction]
  · simp [ReducedInstruction.toInstruction]

/-- C3 amended: for every input whose instructions are all of the five kinds
Move, Line, CubicCurve, QuadraticCurve, ClosePath AND carry absolute
coordinates, `reduceInstructions` returns the input sequence unchanged. -/
theorem reduce_identity_on_absolute_five_kinds (l : List Instruction)
    (h : l.all reducedAbs = true) :
    ∃ r, reduceInstructions l = .ok r ∧
      r.map ReducedInstruction.toInstruction = l := by
  refine ⟨reducedList l, reduce_eq_reducedList l, ?_⟩
  have : reducedList l = l.filterMap simplifyOpt := by
    simp only [reducedList, normalizeInstructions, normalizeLoop_id l initState h]
  rw [this]
  exact filterMap_map_toInstruction l h

theorem reduce_identity_on_absolute_five_kinds_witness :
    [Instruction.Move false 1 2, Instruction.ClosePath].all reducedAbs = true ∧
    ∃ r, reduceInstructions [Instruction.Move false 1 2, Instruction.ClosePath] = .ok r ∧
      r.map ReducedInstruction.toInstruction =
        [Instruction.Move false 1 2, Instruction.ClosePath] :=
  ⟨by decide, reduce_identity_on_absolute_five_kinds _ (by decide)⟩

lemma normalizeLoop_append (a : List Instruction) :
    ∀ (b : List Instruction) (s : NormState),
      normalizeLoop s (a ++ b) = normalizeLoop s a ++ normalizeLoop (stateAfter s a) b := by
  induction a with
  | nil => intros; rfl
  | cons i rest ih =>
      intro b s
      simp [normalizeLoop, stateAfter, ih, List.append_assoc]

/-- The reduced instructions derived from a single input instruction processed
at state `s`. -/
def groupOf (s : NormState) (i : Instruction) : List ReducedInstruction :=
  ((normalizeInstruction s i).1).filterMap simplifyOpt

lemma reduce_append_cons (pre : List Instruction) (i : Instruction) (post : List Instruction) :
    reduceInstructions (pre ++ i :: post) =
      .ok (reducedList pre ++ (groupOf (stateAfter initState pre) i ++
        (normalizeLoop (normalizeInstruction (stateAfter initState pre) i).2 post).filterMap
          simplifyOpt)) := by
  rw [reduce_eq_reducedList]
  simp [reducedList, normalizeInstructions, normalizeLoop_append, List.filterMap_append,
    groupOf, normalizeLoop, List.append_assoc]

/-- C4 counterexample: a relative HorizontalLine(3) with the cursor at (2,2)
is expanded to Line(5, 2), not Line(3, 2) as the claim, read over all inputs,
would require. -/
theorem horizontal_relative_counterexample :
    reduceInstructions [Instruction.Move false 2 2, Instruction.HorizontalLine true 3] =
      .ok [ReducedInstruction.Move 2 2, ReducedInstruction.Line 5 2] ∧
    ReducedInstruction.Line 3 2 ∉
      [ReducedInstruction.Move 2 2, ReducedInstruction.Line 5 2] := by
  constructor
  · norm_num [reduceInstructions, normalizeInstructions, normalizeLoop,
      normalizeInstruction, resolve, initState, removeATSHVInstructions,
      simplifyInstruction]
  · intro hmem
    simp only [List.mem_cons, List.not_mem_nil, or_false] at hmem
    rcases hmem with h | h
    · exact ReducedInstruction.noConfusion h
    · injection h with h1 h2
      norm_num at h1

/-- C4 amended: a HorizontalLine processed with the cursor at (cx,cy) is
replaced, in place, by Line(x, cy) when absolute and Line(cx + x, cy) when
relative; a VerticalLine is replaced by Line(cx, y) when absolute and
Line(cx, cy + y) when relative. -/
theorem horizontal_vertical_expansion (pre post : List Instruction) (rel : Bool) (x y : ℚ) :
    (∃ r1 r2,
      reduceInstructions (pre ++ Instruction.HorizontalLine rel x :: post) =
        .ok (r1 ++ ReducedInstruction.Line
          (if rel then (stateAfter initState pre).cursor.x + x else x)
          (stateAfter initState pre).cursor.y :: r2) ∧
      reduceInstructions pre = .ok r1) ∧
    (∃ r1 r2,
      reduceInstructions (pre ++ Instruction.VerticalLine rel y :: post) =
        .ok (r1 ++ ReducedInstruction.Line (stateAfter initState pre).cursor.x
          (if rel then (stateAfter initState pre).cursor.y + y else y) :: r2) ∧
      reduceInstructions pre = .ok r1) := by
  constructor
  · refine ⟨reducedList pre,
      (normalizeLoop (normalizeInstruction (stateAfter initState pre)
        (Instruction.HorizontalLine rel x)).2 post).filterMap simplifyOpt,
      ?_, reduce_eq_reducedList pre⟩
    rw [reduce_append_cons pre (Instruction.HorizontalLine rel x) post]
    simp [groupOf, normalizeInstruction, simplifyOpt, simplifyInstruction,
      List.filterMap_cons, Except.toOption]
  · refine ⟨reducedList pre,
      (normalizeLoop (normalizeInstruction (stateAfter initState pre)
        (Instruction.VerticalLine rel y)).2 post).filterMap simplifyOpt,
      ?_, reduce_eq_reducedList pre⟩
    rw [reduce_append_cons pre (Instruction.VerticalLine rel y) post]
    simp [groupOf, normalizeInstruction, simplifyOpt, simplifyInstruction,
      List.filterMap_cons, Except.toOption]

/-- C5: a SmoothCubicCurve immediately following a CubicCurve with last
control point (x2,y2) and endpoint (ex,ey) expands, in place, to a CubicCurve
whose first control point is the reflection (2*ex - x2, 2*ey - y2); and at
any state whose last cubic control point is recorded as `c`, a
SmoothCubicCurve expands by reflecting `c` across the cursor while recording
its own second control point and endpoint for the next instruction, which is
how consecutive smooth curves chain. -/
theorem smooth_cubic_reflection (pre post : List Instruction)
    (x1 y1 x2 y2 ex ey : ℚ) (rel : Bool) (sx2 sy2 sx sy : ℚ) :
    (∃ r1 r2,
      reduceInstructions (pre ++ Instruction.CubicCurve false x1 y1 x2 y2 ex ey ::
          Instruction.SmoothCubicCurve rel sx2 sy2 sx sy :: post) =
        .ok (r1 ++ ReducedInstruction.CubicCurve x1 y1 x2 y2 ex ey ::
          ReducedInstruction.CubicCurve (2 * ex - x2) (2 * ey - y2)
            (resolve rel ⟨ex, ey⟩ sx2 sy2).x (resolve rel ⟨ex, ey⟩ sx2 sy2).y
            (resolve rel ⟨ex, ey⟩ sx sy).x (resolve rel ⟨ex, ey⟩ sx sy).y :: r2) ∧
      reduceInstructions pre = .ok r1) ∧
    (∀ (s : NormState) (c : Point),
      normalizeInstruction { s with lastCubicControl := some c }
          (Instruction.SmoothCubicCurve rel sx2 sy2 sx sy) =
        ([Instruction.CubicCurve false (2 * s.cursor.x - c.x) (2 * s.cursor.y - c.y)
            (resolve rel s.cursor sx2 sy2).x (resolve rel s.cursor sx2 sy2).y
            (resolve rel s.cursor sx sy).x (resolve rel s.cursor sx sy).y],
          { cursor := resolve rel s.cursor sx sy, subpathStart := s.subpathStart,
            lastCubicControl := some (resolve rel s.cursor sx2 sy2),
            lastQuadControl := none })) := by
  constructor
  · refine ⟨reducedList pre,
      (normalizeLoop (normalizeInstruction (normalizeInstruction (stateAfter initState pre)
          (Instruction.CubicCurve false x1 y1 x2 y2 ex ey)).2
        (Instruction.SmoothCubicCurve rel sx2 sy2 sx sy)).2 post).filterMap simplifyOpt,
      ?_, reduce_eq_reducedList pre⟩
    rw [reduce_append_cons pre (Instruction.CubicCurve false x1 y1 x2 y2 ex ey)
      (Instruction.SmoothCubicCurve rel sx2 sy2 sx sy :: post)]
    simp [groupOf, normalizeInstruction, normalizeLoop, resolve, simplifyOpt,
      simplifyInstruction, List.filterMap_cons, List.filterMap_append, Except.toOption]
  · intro s c
    rfl

lemma simplify_error_of_not_reduced (i : Instruction) (h : isReducedKind i = false) :
    simplifyInstruction i = .error "Invalid instruction kind after reduction" := by
  cases i <;> simp_all [isReducedKind, simplifyInstruction]

lemma removeATSHV_error_of_mem (l : List Instruction) :
    ∀ i ∈ l, isReducedKind i = false →
      ∃ e, removeATSHVInstructions l = .error e := by
  induction l with
  | nil => intro i hi; cases hi
  | cons j rest ih =>
      intro i hi h
      rcases List.mem_cons.1 hi with rfl | hmem
      · exact ⟨"Invalid instruction kind after reduction",
          by simp [removeATSHVInstructions, simplify_error_of_not_reduced i h]⟩
      · obtain ⟨e, he⟩ := ih i hmem h
        cases hj : simplifyInstruction j with
        | error e2 => exact ⟨e2, by simp [removeATSHVInstructions, hj]⟩
        | ok r => exact ⟨e, by simp [removeATSHVInstructions, hj, he]⟩

/-- C7: `reduceInstructions` either returns a fully reduced sequence or an
error, never a partial result; and any instruction of a kind other than the
five reduced ones reaching the simplification stage makes the whole stage
fail with an error instead of being emitted or dropped. -/
theorem reduce_total_or_error :
    (∀ l : List Instruction,
      (∃ r, reduceInstructions l = .ok r) ∨ (∃ e, reduceInstructions l = .error e)) ∧
    (∀ (l : List Instruction) (i : Instruction), i ∈ l → isReducedKind i = false →
      ∃ e, removeATSHVInstructions l = .error e) :=
  ⟨fun l => .inl ⟨reducedList l, reduce_eq_reducedList l⟩,
   fun l i hi h => removeATSHV_error_of_mem l i hi h⟩

theorem reduce_total_or_error_witness :
    Instruction.Arc false 1 1 0 false false 2 2 ∈
      [Instruction.Arc false 1 1 0 false false 2 2] ∧
    isReducedKind (Instruction.Arc false 1 1 0 false false 2 2) = false ∧
    ∃ e, removeATSHVInstructions [Instruction.Arc false 1 1 0 false false 2 2] =
      .error e :=
  ⟨List.mem_cons_self _ _, rfl,
    reduce_total_or_error.2 _ _ (List.mem_cons_self _ _) rfl⟩

/-- The per-input-instruction groups of the reduced output, in input order. -/
def reduceGroups : NormState → List Instruction → List (List ReducedInstruction)
  | _, [] => []
  | s, i :: rest => groupOf s i :: reduceGroups (normalizeInstruction s i).2 rest

lemma reduceGroups_length (l : List Instruction) :
    ∀ s : NormState, (reduceGroups s l).length = l.length := by
  induction l with
  | nil => intro s; rfl
  | cons i rest ih => intro s; simp [reduceGroups, ih]

lemma filterMap_normalizeLoop_eq_join (l : List Instruction) :
    ∀ s : NormState,
      (normalizeLoop s l).filterMap simplifyOpt = (reduceGroups s l).flatten := by
  induction l with
  | nil => intro s; rfl
  | cons i rest ih =>
      intro s
      simp [normalizeLoop, reduceGroups, List.filterMap_append, groupOf, ih]

lemma reduceGroups_getD (l : List Instruction) :
    ∀ (s : NormState) (k : Nat), k < l.length →
      (reduceGroups s l).getD k [] =
        groupOf (stateAfter s (l.take k)) (l.getD k Instruction.ClosePath) := by
  induction l with
  | nil => intro s k h; exact absurd h (Nat.not_lt_zero k)
  | cons i rest ih =>
      intro s k h
      cases k with
      | zero => rfl
      | succ k =>
          simp only [reduceGroups, List.getD_cons_succ, List.take_succ_cons, stateAfter]
          exact ih _ k (Nat.lt_of_succ_lt_succ h)

/-- C8: the reduced output is the in-order concatenation of groups, one group
per input instruction, the k-th group being exactly the expansion of the k-th
input instruction at the state reached after its predecessors — so output
order follows input order and no subpaths are reordered or merged. -/
theorem reduce_preserves_order (l : List Instruction) :
    (reduceGroups initState l).length = l.length ∧
    reduceInstructions l = .ok (reduceGroups initState l).flatten ∧
    ∀ k : Nat, k < l.length →
      (reduceGroups initState l).getD k [] =
        groupOf (stateAfter initState (l.take k)) (l.getD k Instruction.ClosePath) := by
  refine ⟨reduceGroups_length l initState, ?_, fun k h => reduceGroups_getD l initState k h⟩
  rw [reduce_eq_reducedList]
  simp [reducedList, normalizeInstructions, filterMap_normalizeLoop_eq_join]

theorem reduce_preserves_order_witness :
    (reduceGroups initState [Instruction.ClosePath]).getD 0 [] =
      groupOf (stateAfter initState ([Instruction.ClosePath].take 0))
        ([Instruction.ClosePath].getD 0 Instruction.ClosePath) :=
  (reduce_preserves_order [Instruction.ClosePath]).2.2 0 (by decide)

end PathReducer

namespace Screenshot

/-- The still image formats `screenshotDOMElement` dispatches on; `none` can
reach the function only past the type assertion marked expect-error in the
source. -/
inductive StillImageFormat where
  | png
  | jpeg
  | pdf
  | webp
  | none
deriving DecidableEq, Repr

/-- Result of the underlying `screenshot` browser call: a buffer of bytes or,
for some capture paths, a string. -/
inductive ScreenshotReturn where
  | buffer (b : List Nat)
  | str (s : String)
deriving DecidableEq, Repr

/-- Side effects of `screenshotDOMElement` observable on the page: the body
background it sets before capturing, and whether the underlying `screenshot`
call was made. -/
structure ScreenshotEffects where
  bodyBackground : String
  screenshotCalled : Bool
deriving DecidableEq, Repr

/-- The function `screenshotDOMElement` (src/unnamed/part_001 lines 7-72): sets the body
background to transparent for png/pdf/webp and black otherwise, throws a
TypeError for image format `none` before taking any screenshot, then
screenshots and throws a TypeError if the call returned a string instead of
a buffer.  The underlying browser call is abstracted by its return value
`shot`. -/
def screenshotDOMElement (imageFormat : StillImageFormat)
    (shot : ScreenshotReturn) : Except String (List Nat) × ScreenshotEffects :=
  let bg : String :=
    if imageFormat = .png ∨ imageFormat = .pdf ∨ imageFormat = .webp then
      "transparent"
    else
      "black"
  if imageFormat = .none then
    (.error "Tried to make a screenshot with format \"none\"",
      { bodyBackground := bg, screenshotCalled := false })
  else
    match shot with
    | .str _ =>
        (.error "Expected a buffer",
          { bodyBackground := bg, screenshotCalled := true })
    | .buffer b => (.ok b, { bodyBackground := bg, screenshotCalled := true })

/-- C9: with image format `none` a TypeError is thrown before any screenshot
is taken; every successful return carries the buffer the screenshot call
produced; and a string result of the underlying call always yields an error
instead of being returned. -/
theorem screenshot_none_and_buffer :
    (∀ shot,
      (screenshotDOMElement .none shot).1 =
        .error "Tried to make a screenshot with format \"none\"" ∧
      (screenshotDOMElement .none shot).2.screenshotCalled = false) ∧
    (∀ fmt shot b, (screenshotDOMElement fmt shot).1 = .ok b →
      shot = .buffer b) ∧
    (∀ fmt s, ∃ e, (screenshotDOMElement fmt (.str s)).1 = .error e) := by
  refine ⟨fun shot => ⟨rfl, rfl⟩, ?_, ?_⟩
  · intro fmt shot b h
    cases fmt <;> cases shot <;> simp_all [screenshotDOMElement]
  · intro fmt s
    cases fmt <;>
      first
      | exact ⟨"Expected a buffer", rfl⟩
      | exact ⟨"Tried to make a screenshot with format \"none\"", rfl⟩

theorem screenshot_none_and_buffer_witness :
    (screenshotDOMElement .png (.buffer [7])).1 = .ok [7] ∧
    ScreenshotReturn.buffer [7] = ScreenshotReturn.buffer [7] :=
  ⟨rfl, screenshot_none_and_buffer.2.1 .png (.buffer [7]) [7] rfl⟩

end Screenshot

namespace Cloudrun

/-- A parsed response payload carried in a stream chunk
(`chunkResponse.response`). -/
structure ResponsePayload where
  status : String
  stack : String
deriving DecidableEq, Repr

/-- One parsed chunk of the streamed Cloud Run response: it may carry a
`response` field, an `onProgress` field, or neither. -/
structure Chunk where
  response : Option ResponsePayload
  onProgress : Option ℚ
deriving DecidableEq, Repr

/-- State accumulated by the `data` listener: the last `response` payload
seen, and the calls made so far to `updateRenderProgress` as
(progress, error flag) pairs. -/
structure StreamState where
  response : Option ResponsePayload
  progressCalls : List (ℚ × Bool)
deriving DecidableEq, Repr

def initialStreamState : StreamState := { response := none, progressCalls := [] }

/-- The `data` listener (src/unnamed/part_000 lines 213-220): a chunk with a
`response` field records it; otherwise a chunk with an `onProgress` field
calls `updateRenderProgress(progress)` with no error flag. -/
def onDataChunk (s : StreamState) (c : Chunk) : StreamState :=
  match c.response with
  | some r => { s with response := some r }
  | none =>
      match c.onProgress with
      | some p => { s with progressCalls := s.progressCalls ++ [(p, false)] }
      | none => s

/-- The crash payload built when the stream ends without a response. -/
structure CrashResponse where
  status : String
  cloudRunEndpoint : String
  message : String
  requestStartTime : String
  requestCrashTime : String
  requestElapsedTimeInSeconds : ℚ
deriving DecidableEq, Repr

/-- How the promise inside `renderMediaOnCloudrun` settles when the stream
ends: resolved with a crash payload, resolved with the received response, or
rejected by the exception thrown in the `end` listener. -/
inductive EndOutcome where
  | resolvedCrash (c : CrashResponse)
  | resolvedResponse (r : ResponsePayload)
  | thrown (stack : String)
deriving DecidableEq, Repr

/-- The `end` listener (src/unnamed/part_000 lines 222-243): with no response
recorded it calls `updateRenderProgress(0, true)` and resolves with a crash
payload carrying status `crash`, the endpoint, the formatted start and crash
timestamps and the elapsed seconds; with a response whose status is neither
success nor crash it throws the response's stack; otherwise it resolves with
the response.  (The unconditional `resolve(response)` the source reaches
after resolving the crash payload is a no-op on an already settled promise.)
Returns the outcome and the full list of progress calls. -/
def onStreamEnd (cloudRunEndpoint : String) (startTime : ℤ)
    (formattedStartTime : String) (crashTime : ℤ) (formattedCrashTime : String)
    (s : StreamState) : EndOutcome × List (ℚ × Bool) :=
  match s.response with
  | none =>
      (.resolvedCrash
        { status := "crash",
          cloudRunEndpoint := cloudRunEndpoint,
          message := "Service crashed without sending a response. Check the logs in GCP console.",
          requestStartTime := formattedStartTime,
          requestCrashTime := formattedCrashTime,
          requestElapsedTimeInSeconds := ((crashTime : ℚ) - (startTime : ℚ)) / 1000 },
        s.progressCalls ++ [(0, true)])
  | some r =>
      if r.status ≠ "success" ∧ r.status ≠ "crash" then
        (.thrown r.stack, s.progressCalls)
      else
        (.resolvedResponse r, s.progressCalls)

/-- The promise body over a fully received stream: fold the `data` listener
over the chunks in arrival order, then run the `end` listener. -/
def renderStreamOutcome (cloudRunEndpoint : String) (startTime : ℤ)
    (formattedStartTime : String) (crashTime : ℤ) (formattedCrashTime : String)
    (chunks : List Chunk) : EndOutcome × List (ℚ × Bool) :=
  onStreamEnd cloudRunEndpoint startTime formattedStartTime crashTime
    formattedCrashTime (chunks.foldl onDataChunk initialStreamState)

lemma onDataChunk_no_response (s : StreamState) (c : Chunk)
    (hc : c.response = none) :
    (onDataChunk s c).response = s.response ∧
    ∃ add, (onDataChunk s c).progressCalls = s.progressCalls ++ add := by
  cases hp : c.onProgress with
  | none => exact ⟨by simp [onDataChunk, hc, hp], [], by simp [onDataChunk, hc, hp]⟩
  | some p =>
      exact ⟨by simp [onDataChunk, hc, hp], [(p, false)],
        by simp [onDataChunk, hc, hp]⟩

lemma foldl_response_none (chunks : List Chunk) :
    ∀ s : StreamState, (∀ c ∈ chunks, c.response = none) →
      (chunks.foldl onDataChunk s).response = s.response ∧
      ∃ calls, (chunks.foldl onDataChunk s).progressCalls = s.progressCalls ++ calls := by
  induction chunks with
  | nil => intro s _; exact ⟨rfl, [], by simp⟩
  | cons c rest ih =>
      intro s h
      have hc : c.response = none := h c (List.mem_cons_self c rest)
      obtain ⟨h1, add, h2⟩ := onDataChunk_no_response s c hc
      obtain ⟨ih1, calls, ih2⟩ :=
        ih (onDataChunk s c) (fun d hd => h d (List.mem_cons_of_mem c hd))
      refine ⟨by simp [List.foldl_cons, ih1, h1], add ++ calls, ?_⟩
      simp [List.foldl_cons, ih2, h2, List.append_assoc]

/-- C10: if the stream ends without any chunk carrying a `response` field,
the promise resolves (rather than rejects) with a payload of status `crash`
carrying the endpoint, the formatted start and crash timestamps and the
elapsed seconds `(crashTime - startTime) / 1000`, and the last
`updateRenderProgress` call is made with progress 0 and the error flag
set. -/
theorem cloudrun_crash_on_silent_stream_end (endpoint fs fc : String)
    (st ct : ℤ) (chunks : List Chunk)
    (h : ∀ c ∈ chunks, c.response = none) :
    (renderStreamOutcome endpoint st fs ct fc chunks).1 =
      .resolvedCrash
        { status := "crash",
          cloudRunEndpoint := endpoint,
          message := "Service crashed without sending a response. Check the logs in GCP console.",
          requestStartTime := fs,
          requestCrashTime := fc,
          requestElapsedTimeInSeconds := ((ct : ℚ) - (st : ℚ)) / 1000 } ∧
    ∃ calls, (renderStreamOutcome endpoint st fs ct fc chunks).2 =
      calls ++ [((0 : ℚ), true)] := by
  obtain ⟨hresp, calls, -⟩ := foldl_response_none chunks initialStreamState h
  have hr : (chunks.foldl onDataChunk initialStreamState).response = none := hresp
  constructor
  · simp [renderStreamOutcome, onStreamEnd, hr]
  · exact ⟨(chunks.foldl onDataChunk initialStreamState).progressCalls,
      by simp [renderStreamOutcome, onStreamEnd, hr]⟩

theorem cloudrun_crash_on_silent_stream_end_witness :
    (∀ c ∈ [({ response := none, onProgress := some (1 / 2) } : Chunk)],
      c.response = none) ∧
    ((renderStreamOutcome "endpoint" 0 "start-time" 1500 "crash-time"
        [{ response := none, onProgress := some (1 / 2) }]).1 =
      .resolvedCrash
        { status := "crash",
          cloudRunEndpoint := "endpoint",
          message := "Service crashed without sending a response. Check the logs in GCP console.",
          requestStartTime := "start-time",
          requestCrashTime := "crash-time",
          requestElapsedTimeInSeconds := (((1500 : ℤ) : ℚ) - ((0 : ℤ) : ℚ)) / 1000 } ∧
    ∃ calls, (renderStreamOutcome "endpoint" 0 "start-time" 1500 "crash-time"
        [{ response := none, onProgress := some (1 / 2) }]).2 =
      calls ++ [((0 : ℚ), true)]) :=
  ⟨fun c hc => by
      simp only [List.mem_cons, List.not_mem_nil, or_false] at hc
      subst hc
      rfl,
    cloudrun_crash_on_silent_stream_end "endpoint" "start-time" "crash-time" 0 1500
      [{ response := none, onProgress := some (1 / 2) }]
      (fun c hc => by
        simp only [List.mem_cons, List.not_mem_nil, or_false] at hc
        subst hc
        rfl)⟩

end Cloudrun

